import Mathlib

/-!
Verification of the name-matching and reconciliation core of the 3in1
timesheet tool (files `MASTER_3in1Tool_v2.py` and `utils_threeinone.py`).

Strings are modelled as `List Char`; the ASCII fragment of the Python string
operations is embedded directly:

* `str.strip()` removes leading and trailing whitespace (`pyStrip`);
* `str.upper()` / `str.lower()` act per character (`Char.toUpper` in Lean core
  is exactly the ASCII uppercase map used by Python on ASCII text);
* `re.sub(class, repl, s)` on a character class removes or replaces the
  matching characters (`List.filter` / `replaceRuns`);
* `re.sub(r"\b W \b", "", s)` deletes word-bounded occurrences of the word
  `W`, scanning left to right (`subWord`);
* missing values (`None` / NaN, checked by `pd.isna`) are modelled by
  `Option`.

Character classes are expressed through code points (`Char.toNat`), e.g. the
apostrophe is code point 39, `'.'` is 46, space is 32.
-/

set_option maxHeartbeats 1000000

namespace ThreeInOne

/-- Python whitespace (regex `\s`, `str.strip`), restricted to ASCII:
space, tab, newline, carriage return, vertical tab, form feed. -/
def isPySpace (c : Char) : Bool :=
  decide (c.toNat = 32 ∨ c.toNat = 9 ∨ c.toNat = 10 ∨ c.toNat = 13 ∨
    c.toNat = 11 ∨ c.toNat = 12)

/-- The character class of `re.sub(r"[\.,']", "", name)` in
`utils_threeinone.normalize_name`: period, comma, apostrophe. -/
def isUtilPunct (c : Char) : Bool :=
  decide (c.toNat = 46 ∨ c.toNat = 44 ∨ c.toNat = 39)

/-- The character class of `re.sub(r"[,\-\.]+", " ", normalized)` in
`MASTER_3in1Tool_v2.normalize_name`: comma, hyphen, period. -/
def isMasterPunct (c : Char) : Bool :=
  decide (c.toNat = 44 ∨ c.toNat = 45 ∨ c.toNat = 46)

/-- Regex word character `\w` (ASCII): letters, digits, underscore. -/
def isWordChar (c : Char) : Bool :=
  decide ((65 ≤ c.toNat ∧ c.toNat ≤ 90) ∨ (97 ≤ c.toNat ∧ c.toNat ≤ 122) ∨
    (48 ≤ c.toNat ∧ c.toNat ≤ 57) ∨ c.toNat = 95)

/-- The character class `[A-Za-z0-9_-]` kept by
`utils_threeinone.format_output_filename`. -/
def isSafeChar (c : Char) : Bool :=
  decide ((65 ≤ c.toNat ∧ c.toNat ≤ 90) ∨ (97 ≤ c.toNat ∧ c.toNat ≤ 122) ∨
    (48 ≤ c.toNat ∧ c.toNat ≤ 57) ∨ c.toNat = 95 ∨ c.toNat = 45)

/-- Python `str.strip()`: drop leading and trailing whitespace. -/
def pyStrip (s : List Char) : List Char :=
  ((s.dropWhile isPySpace).reverse.dropWhile isPySpace).reverse

/-- Python `str.upper()` on ASCII text. -/
def upperMap (s : List Char) : List Char := s.map Char.toUpper

/-- Python `str.lower()` on ASCII text. -/
def lowerMap (s : List Char) : List Char := s.map Char.toLower

/-- `re.sub(r"[\.,']", "", name)`: delete periods, commas and apostrophes. -/
def removeUtilPunct (s : List Char) : List Char :=
  s.filter (fun c => !isUtilPunct c)

/-- Worker for `replaceRuns`; the flag records whether the previous
character belonged to the class `p` (i.e. we are inside a run that has
already been replaced). -/
def replaceRunsAux (p : Char → Bool) (r : Char) : Bool → List Char → List Char
  | _, [] => []
  | inRun, c :: cs =>
    if p c then
      if inRun then replaceRunsAux p r true cs
      else r :: replaceRunsAux p r true cs
    else c :: replaceRunsAux p r false cs

/-- `re.sub(class+, repl, s)`: replace every maximal run of characters of
class `p` by the single character `r`.  Instantiated with `isPySpace`/space
it is `re.sub(r"\s+", " ", s)`; with `isMasterPunct`/space it is
`re.sub(r"[,\-\.]+", " ", s)`; with non-`isSafeChar`/underscore it is
`re.sub(r"[^A-Za-z0-9_-]+", "_", s)`. -/
def replaceRuns (p : Char → Bool) (r : Char) (s : List Char) : List Char :=
  replaceRunsAux p r false s

/-- `re` word boundary before a word character, given the preceding original
character (`none` at the start of the string). -/
def atBoundary : Option Char → Bool
  | none => true
  | some p => !isWordChar p

/-- `re` word boundary after a word character, given the remainder of the
original string. -/
def headBoundary : List Char → Bool
  | [] => true
  | d :: _ => !isWordChar d

/-- `startsList w s` is true when `w` is an initial segment of `s`. -/
def startsList : List Char → List Char → Bool
  | [], _ => true
  | _ :: _, [] => false
  | a :: as, b :: bs => a == b && startsList as bs

/-- Worker for `subWord`, structurally recursive on a fuel counter.  Each
step consumes at least one character of `s`, so with `fuel = s.length` the
fuel never runs out; the `0` case returns the remainder unchanged. -/
def subWordAux (w0 : Char) (wr : List Char) :
    Nat → Option Char → List Char → List Char
  | 0, _, s => s
  | _ + 1, _, [] => []
  | fuel + 1, prev, c :: cs =>
    if atBoundary prev && startsList (w0 :: wr) (c :: cs) &&
        headBoundary (cs.drop wr.length) then
      subWordAux w0 wr fuel (some (wr.getLastD w0)) (cs.drop wr.length)
    else
      c :: subWordAux w0 wr fuel (some c) cs

/-- `re.sub(rf"\b{w}\b", "", s)` for a fixed word `w = w0 :: wr` made of word
characters: delete every word-bounded, non-overlapping occurrence of `w`,
scanning left to right.  `prev` is the character of the original string just
before the current position (`none` at the start); boundaries are evaluated
on the original string, as `re` does. -/
def subWord (w0 : Char) (wr : List Char) (prev : Option Char) (s : List Char) :
    List Char :=
  subWordAux w0 wr s.length prev s

/-- Decides whether `re` would find any word-bounded occurrence of
`w0 :: wr` in `s`, given the character before the current position. -/
def hasWordMatch (w0 : Char) (wr : List Char) (prev : Option Char) :
    List Char → Bool
  | [] => false
  | c :: cs =>
    (atBoundary prev && startsList (w0 :: wr) (c :: cs) &&
      headBoundary (cs.drop wr.length)) || hasWordMatch w0 wr (some c) cs

end ThreeInOne

namespace ThreeInOne.UtilsSrc

/-- Core of `utils_threeinone.normalize_name` on a string input:
`re.sub(r"[\.,']", "", name).strip().upper()` followed by
`re.sub(r"\s+", " ", cleaned)`. -/
def normCore (s : List Char) : List Char :=
  replaceRuns isPySpace ' ' (upperMap (pyStrip (removeUtilPunct s)))

/-- `utils_threeinone.normalize_name`; `none` models a non-string input
(the `isinstance` guard returns the empty string). -/
def normalize_name : Option (List Char) → List Char
  | none => []
  | some s => normCore s

/-- `utils_threeinone.format_output_filename` with an explicit timestamp:
`re.sub(r"[^A-Za-z0-9_-]+", "_", prefix.strip()).lower()` followed by
`f"{safe_prefix}_{timestamp}.{extension.lstrip('.')}"`. -/
def format_output_filename (pre ext ts : List Char) : List Char :=
  lowerMap (replaceRuns (fun c => !isSafeChar c) '_' (pyStrip pre)) ++
    '_' :: ts ++ '.' :: ext.dropWhile (fun c => c == '.')

end ThreeInOne.UtilsSrc

namespace ThreeInOne.MasterSrc

/-- The suffix-removal loop of `MASTER_3in1Tool_v2.normalize_name`:
`re.sub(rf"\b{suffix}\b", "", normalized)` for
`suffixes = ["JR", "SR", "III", "II", "IV"]`, in that order. -/
def removeSuffixes (s : List Char) : List Char :=
  subWord 'I' ['V'] none
    (subWord 'I' ['I'] none
      (subWord 'I' ['I', 'I'] none
        (subWord 'S' ['R'] none
          (subWord 'J' ['R'] none s))))

/-- Pipeline of `MASTER_3in1Tool_v2.normalize_name` past its blank guard:
`str(name_str).upper().strip()`, then `re.sub(r"\s+", " ", ...)`, then
`re.sub(r"[,\-\.]+", " ", ...)`, then the suffix loop, then `.strip()`. -/
def normCore (s : List Char) : List Char :=
  pyStrip (removeSuffixes
    (replaceRuns isMasterPunct ' '
      (replaceRuns isPySpace ' '
        (pyStrip (upperMap s)))))

/-- `MASTER_3in1Tool_v2.normalize_name`; `none` models a NaN input.  The
source returns `""` when `pd.isna(name_str) or not str(name_str).strip()`. -/
def normalize_name : Option (List Char) → List Char
  | none => []
  | some s => if pyStrip s = [] then [] else normCore s

/-- `MASTER_3in1Tool_v2.format_output_filename` with `include_timestamp=True`:
`f"{base_name}_{timestamp}{extension}"` (no prefix normalization; the
extension is appended verbatim, dot included). -/
def format_output_filename (base ext ts : List Char) : List Char :=
  base ++ '_' :: ts ++ ext

/-- The value stored in `MatchingEngine.lookup_dict`:
`{"id": row[id_col], "original_name": row[name_col]}`. -/
structure LookupRecord where
  id : List Char
  original_name : List Char
deriving DecidableEq, Repr

/-- The four counters of `MatchingEngine.match_stats`. -/
structure MatchStats where
  exact_matches : Nat
  fuzzy_matches : Nat
  no_matches : Nat
  already_had_id : Nat
deriving DecidableEq, Repr

/-- `MatchingEngine` state: the configured threshold, the lookup dictionary
(modelled as an association list in Python-dict insertion order) and the
statistics counters. -/
structure MatchingEngine where
  fuzzy_threshold : Nat
  lookup_dict : List (List Char × LookupRecord)
  match_stats : MatchStats
deriving DecidableEq, Repr

/-- Python dict assignment `d[k] = v`: overwrite in place if the key exists
(keeping its position), else append. -/
def dictInsert (k : List Char) (v : LookupRecord) :
    List (List Char × LookupRecord) → List (List Char × LookupRecord)
  | [] => [(k, v)]
  | (k2, v2) :: rest =>
    if k2 = k then (k, v) :: rest else (k2, v2) :: dictInsert k v rest

/-- Python `k in d` / `d[k]` on the dictionary model. -/
def dictFind (d : List (List Char × LookupRecord)) (k : List Char) :
    Option LookupRecord :=
  (d.find? (fun p => decide (p.1 = k))).map (fun p => p.2)

/-- `MatchingEngine.build_lookup`: for each row, if both the name cell and
the id cell are non-NaN (`pd.notna`) and the normalized name is non-empty,
insert `normalized_name -> {id, original_name}`.  The dictionary is rebuilt
from scratch (`self.lookup_dict = {}`). -/
def build_lookup
    (rows : List (Option (List Char) × Option (List Char))) :
    List (List Char × LookupRecord) :=
  rows.foldl
    (fun d row =>
      match row.1, row.2 with
      | some nm, some idv =>
        let key := normalize_name (some nm)
        if key ≠ [] then dictInsert key ⟨idv, nm⟩ d else d
      | _, _ => d)
    []

/-- `pd.notna(existing_id) and str(existing_id).strip()`: the id is present
and non-blank after trimming. -/
def presentNonBlank : Option (List Char) → Bool
  | none => false
  | some s => !(pyStrip s).isEmpty

/-- `pd.isna(name) or not str(name).strip()`: the raw name is absent or
blank after trimming. -/
def blankName : Option (List Char) → Bool
  | none => true
  | some s => (pyStrip s).isEmpty

/-- The distinct match statuses returned by `match_employee_id` (the source
returns them as strings): `"Already had ID"`, `"No match - empty name"`
(the spec's `InvalidName`), `"Exact match"`, `f"Fuzzy match ({c}%)"`,
`"No match"`. -/
inductive MatchStatus where
  | alreadyHadId
  | invalidName
  | exactMatch
  | fuzzyMatch (confidence : Nat)
  | noMatch
deriving DecidableEq, Repr

/-- `fuzzywuzzy.process.extractOne(q, keys, scorer)` over a non-empty choice
list: the best-scoring key together with its score, the first such key in
iteration order on ties (`extractOne` keeps the earliest maximum).  The
similarity metric (`fuzz.token_sort_ratio` composed with the default
processor) is an external library; it is abstracted as `scorer`, an
arbitrary function into scores. -/
def extractOne (scorer : List Char → List Char → Nat) (q : List Char) :
    List (List Char) → Option (List Char × Nat)
  | [] => none
  | k :: ks =>
    some (ks.foldl
      (fun best k2 =>
        if scorer q k2 > best.2 then (k2, scorer q k2) else best)
      (k, scorer q k))

/-- `MatchingEngine.match_employee_id` (the `FUZZY_AVAILABLE` branch, which
uses `process.extractOne`).  Returns the `(matched_id, match_status,
confidence_score)` triple together with the updated engine (the source
mutates `self.match_stats` in place). -/
def match_employee_id (scorer : List Char → List Char → Nat)
    (e : MatchingEngine) (name : Option (List Char))
    (existing_id : Option (List Char)) :
    (Option (List Char) × MatchStatus × Nat) × MatchingEngine :=
  if presentNonBlank existing_id then
    ((existing_id, .alreadyHadId, 100),
      { e with match_stats :=
        { e.match_stats with
          already_had_id := e.match_stats.already_had_id + 1 } })
  else if blankName name then
    ((none, .invalidName, 0),
      { e with match_stats :=
        { e.match_stats with no_matches := e.match_stats.no_matches + 1 } })
  else
    match dictFind e.lookup_dict (normalize_name name) with
    | some r =>
      ((some r.id, .exactMatch, 100),
        { e with match_stats :=
          { e.match_stats with
            exact_matches := e.match_stats.exact_matches + 1 } })
    | none =>
      match extractOne scorer (normalize_name name)
          (e.lookup_dict.map Prod.fst) with
      | some (bk, bs) =>
        if bs ≥ e.fuzzy_threshold then
          (((dictFind e.lookup_dict bk).map LookupRecord.id,
              .fuzzyMatch bs, bs),
            { e with match_stats :=
              { e.match_stats with
                fuzzy_matches := e.match_stats.fuzzy_matches + 1 } })
        else
          ((none, .noMatch, 0),
            { e with match_stats :=
              { e.match_stats with
                no_matches := e.match_stats.no_matches + 1 } })
      | none =>
        ((none, .noMatch, 0),
          { e with match_stats :=
            { e.match_stats with
              no_matches := e.match_stats.no_matches + 1 } })

/-- A data row for `validate_employee_ids`: the `Time Sheet Owner Name`
cell (`none` models NaN) plus all other columns, abstracted as a payload. -/
structure DataRow (α : Type) where
  name : Option (List Char)
  payload : α
deriving DecidableEq, Repr

/-- The `Name_Normalized` column added by `validate_employee_ids`:
`df["Time Sheet Owner Name"].apply(normalize_name)`. -/
def rowKey {α : Type} (r : DataRow α) : List Char :=
  normalize_name r.name

/-- The `matched` result of `validate_employee_ids`:
`pd.merge(df1, df2, on="Name_Normalized", how="inner")` — every pair of a
left row and a right row with equal normalized names (full cross product on
duplicate keys), in left-major order. -/
def matched_df {α : Type} (left right : List (DataRow α)) :
    List (DataRow α × DataRow α) :=
  left.flatMap (fun l =>
    (right.filter (fun r => decide (rowKey r = rowKey l))).map (fun r => (l, r)))

/-- `only_in_file1 = df1[~df1["Name_Normalized"].isin(df2["Name_Normalized"])]`. -/
def only_in_file1 {α : Type} (left right : List (DataRow α)) :
    List (DataRow α) :=
  left.filter (fun l => !(right.any (fun r => decide (rowKey r = rowKey l))))

/-- `only_in_file2 = df2[~df2["Name_Normalized"].isin(df1["Name_Normalized"])]`. -/
def only_in_file2 {α : Type} (left right : List (DataRow α)) :
    List (DataRow α) :=
  right.filter (fun r => !(left.any (fun l => decide (rowKey l = rowKey r))))

/-- `validate_employee_ids`: the triple
`(matched, only_in_file1, only_in_file2)`. -/
def validate_employee_ids {α : Type} (left right : List (DataRow α)) :
    List (DataRow α × DataRow α) × List (DataRow α) × List (DataRow α) :=
  (matched_df left right, only_in_file1 left right, only_in_file2 left right)

/-- A matched row for `track_compliance_changes`: the two compliance cells
(`Compliance %_hist` from the history side, `Compliance %_emp` from the
current side) of type `γ`, plus the remaining columns as a payload. -/
structure MatchedRow (γ : Type) (α : Type) where
  hist : γ
  emp : γ
  payload : α
deriving DecidableEq, Repr

/-- The `Compliance_Change` column:
`pd.to_numeric(emp, errors="coerce") - pd.to_numeric(hist, errors="coerce")`.
`pd.to_numeric` with `errors="coerce"` is an external pandas routine turning
a cell into a number or NaN; it is abstracted as `toNum` into `Option ℚ`
(`none` = NaN).  Subtraction propagates NaN, and every comparison of NaN
with `0` is false, so a row whose delta is `none` passes none of the three
filters below — exactly the pandas behavior. -/
def compDelta {γ : Type} (toNum : γ → Option ℚ) {α : Type}
    (r : MatchedRow γ α) : Option ℚ :=
  match toNum r.emp, toNum r.hist with
  | some b, some a => some (b - a)
  | _, _ => none

/-- `improved = matched_df[matched_df["Compliance_Change"] > 0]`. -/
def improvedRows {γ α : Type} (toNum : γ → Option ℚ)
    (rows : List (MatchedRow γ α)) : List (MatchedRow γ α) :=
  rows.filter (fun r =>
    match compDelta toNum r with
    | some d => decide (0 < d)
    | none => false)

/-- `declined = matched_df[matched_df["Compliance_Change"] < 0]`. -/
def declinedRows {γ α : Type} (toNum : γ → Option ℚ)
    (rows : List (MatchedRow γ α)) : List (MatchedRow γ α) :=
  rows.filter (fun r =>
    match compDelta toNum r with
    | some d => decide (d < 0)
    | none => false)

/-- `unchanged = matched_df[matched_df["Compliance_Change"] == 0]`. -/
def unchangedRows {γ α : Type} (toNum : γ → Option ℚ)
    (rows : List (MatchedRow γ α)) : List (MatchedRow γ α) :=
  rows.filter (fun r =>
    match compDelta toNum r with
    | some d => decide (d = 0)
    | none => false)

/-- `track_compliance_changes`: the triple `(improved, declined, unchanged)`. -/
def track_compliance_changes {γ α : Type} (toNum : γ → Option ℚ)
    (rows : List (MatchedRow γ α)) :
    List (MatchedRow γ α) × List (MatchedRow γ α) × List (MatchedRow γ α) :=
  (improvedRows toNum rows, declinedRows toNum rows, unchangedRows toNum rows)

/-- The rows skipped by the classifier: those where at least one of the two
compliance cells fails numeric coercion (the spec's `CoercionSkip` count). -/
def skippedCount {γ α : Type} (toNum : γ → Option ℚ)
    (rows : List (MatchedRow γ α)) : Nat :=
  rows.countP (fun r => (compDelta toNum r).isNone)

end ThreeInOne.MasterSrc

namespace ThreeInOne

/-- No two adjacent characters of the list both satisfy `p`. -/
def noDoubleP (p : Char → Bool) : List Char → Bool
  | [] => true
  | [_] => true
  | a :: b :: t => !(p a && p b) && noDoubleP p (b :: t)

/-- A name string that is already in canonical form for both normalizers:
non-empty, made of uppercase ASCII letters and spaces only, no leading or
trailing space, no two adjacent spaces, and containing no word-bounded
occurrence of the generational suffixes `JR`, `SR`, `III`, `II`, `IV`. -/
def cleanName (s : List Char) : Bool :=
  !s.isEmpty &&
  s.all (fun c => decide ((65 ≤ c.toNat ∧ c.toNat ≤ 90) ∨ c.toNat = 32)) &&
  (match s.head? with | some c => !isPySpace c | none => true) &&
  (match s.getLast? with | some c => !isPySpace c | none => true) &&
  noDoubleP isPySpace s &&
  !hasWordMatch 'J' ['R'] none s &&
  !hasWordMatch 'S' ['R'] none s &&
  !hasWordMatch 'I' ['I', 'I'] none s &&
  !hasWordMatch 'I' ['I'] none s &&
  !hasWordMatch 'I' ['V'] none s

end ThreeInOne

namespace ThreeInOne.ClaimSpec

/-- The suffix tokens named by the spec, in its listed order. -/
def suffixTokens : List (List Char) :=
  [['J', 'R'], ['S', 'R'], ['I', 'I'], ['I', 'I', 'I'], ['I', 'V']]

/-- Whether `s` ends with the token `w` as a whole token anchored at the end
of the string: `s` ends with `w`, and the character before that occurrence
(if any) is whitespace. -/
def endsWithTok (w s : List Char) : Bool :=
  startsList w.reverse s.reverse &&
    (match s.reverse.drop w.length with
     | [] => true
     | d :: _ => isPySpace d)

/-- Step (5) of the claimed algorithm: strip a trailing generational suffix
occurring as a whole token anchored at the end of the string, together with
the whitespace separating it from the rest of the name. -/
def stripSuffixEnd (s : List Char) : List Char :=
  match suffixTokens.find? (fun w => endsWithTok w s) with
  | some w => ((s.reverse.drop w.length).dropWhile isPySpace).reverse
  | none => s

/-- The normalization algorithm exactly as the claim states it, formalised
from the claim text (not from either source function): (1) uppercase;
(2) strip leading/trailing whitespace; (3) remove periods, commas and
apostrophes while keeping hyphens; (4) collapse each run of internal
whitespace to a single space; (5) strip trailing generational suffixes as
whole tokens anchored at the end.  Step (4) is formalised as collapsing
every whitespace run; at the concrete inputs where this definition is used
the string has no leading or trailing whitespace after step (3), so the
internal-only and everywhere readings coincide there. -/
def claimedNormalize (s : List Char) : List Char :=
  stripSuffixEnd (replaceRuns isPySpace ' ' (removeUtilPunct (pyStrip (upperMap s))))

/-- The output-filename pattern exactly as the claim states it: the prefix
stripped of surrounding whitespace, each maximal run of characters outside
`[A-Za-z0-9_-]` replaced by one underscore, lowercased, then an underscore,
the timestamp, a dot, and the extension. -/
def claimedFilename (pre ext ts : List Char) : List Char :=
  lowerMap (replaceRuns (fun c => !isSafeChar c) '_' (pyStrip pre)) ++
    '_' :: ts ++ '.' :: ext

end ThreeInOne.ClaimSpec


/-!
## Foundation lemmas: characters
-/

namespace ThreeInOne

theorem char_eq_of_toNat_eq {c d : Char} (h : c.toNat = d.toNat) : c = d := by
  have h1 := Char.ofNat_toNat c
  have h2 := Char.ofNat_toNat d
  rw [← h1, ← h2, h]

theorem ofNat_toNat_valid {n : Nat} (h : n < 55296) :
    (Char.ofNat n).toNat = n := by
  unfold Char.ofNat
  split
  · rfl
  · next hv => exact absurd (Or.inl h) hv

theorem toUpper_toNat (c : Char) :
    (Char.toUpper c).toNat =
      if 97 ≤ c.toNat ∧ c.toNat ≤ 122 then c.toNat - 32 else c.toNat := by
  unfold Char.toUpper
  by_cases h : 97 ≤ c.toNat ∧ c.toNat ≤ 122
  · rw [if_pos ⟨h.1, h.2⟩, if_pos h]
    exact ofNat_toNat_valid (by omega)
  · rw [if_neg (by exact fun hc => h ⟨hc.1, hc.2⟩), if_neg h]

theorem isPySpace_toUpper (c : Char) :
    isPySpace (Char.toUpper c) = isPySpace c := by
  simp only [isPySpace, toUpper_toNat, decide_eq_decide]
  split
  · next h => omega
  · exact Iff.rfl

theorem isUtilPunct_toUpper (c : Char) :
    isUtilPunct (Char.toUpper c) = isUtilPunct c := by
  simp only [isUtilPunct, toUpper_toNat, decide_eq_decide]
  split
  · next h => omega
  · exact Iff.rfl

theorem toUpper_idem (c : Char) :
    Char.toUpper (Char.toUpper c) = Char.toUpper c := by
  apply char_eq_of_toNat_eq
  rw [toUpper_toNat, toUpper_toNat]
  by_cases h : 97 ≤ c.toNat ∧ c.toNat ≤ 122
  · rw [if_pos h, if_neg (by omega)]
  · rw [if_neg h, if_neg h]

theorem toUpper_eq_self {c : Char} (h : ¬(97 ≤ c.toNat ∧ c.toNat ≤ 122)) :
    Char.toUpper c = c := by
  apply char_eq_of_toNat_eq
  rw [toUpper_toNat, if_neg h]

theorem toUpper_space : Char.toUpper ' ' = ' ' :=
  toUpper_eq_self (by decide)

end ThreeInOne

/-!
## Foundation lemmas: list operations
-/

namespace ThreeInOne

theorem upperMap_removeUtilPunct (s : List Char) :
    removeUtilPunct (upperMap s) = upperMap (removeUtilPunct s) := by
  unfold removeUtilPunct upperMap
  rw [List.filter_map]
  congr 1
  apply List.filter_congr
  intro c _
  simp only [Function.comp_apply, isUtilPunct_toUpper]

theorem pyStrip_upperMap (s : List Char) :
    pyStrip (upperMap s) = upperMap (pyStrip s) := by
  unfold pyStrip upperMap
  rw [List.dropWhile_map]
  have h : isPySpace ∘ Char.toUpper = isPySpace := by
    funext c
    exact isPySpace_toUpper c
  rw [h, ← List.map_reverse, List.dropWhile_map, h, ← List.map_reverse]

theorem dropWhile_eq_self_of_head {p : Char → Bool} {s : List Char}
    (h : ∀ c, s.head? = some c → p c = false) : s.dropWhile p = s := by
  cases s with
  | nil => rfl
  | cons c cs => simp [List.dropWhile_cons, h c rfl]

theorem head?_dropWhile_not {p : Char → Bool} (s : List Char) :
    ∀ c, (s.dropWhile p).head? = some c → p c = false := by
  induction s with
  | nil => intro c h; simp at h
  | cons a t ih =>
    intro c h
    rw [List.dropWhile_cons] at h
    by_cases ha : p a
    · rw [if_pos ha] at h
      exact ih c h
    · rw [if_neg ha] at h
      simp only [List.head?_cons, Option.some.injEq] at h
      rw [← h]
      exact Bool.eq_false_iff.mpr ha

theorem getLast?_dropWhile {p : Char → Bool} {s : List Char}
    (h : s.dropWhile p ≠ []) : (s.dropWhile p).getLast? = s.getLast? := by
  obtain ⟨t, ht⟩ := List.dropWhile_suffix (l := s) p
  have h2 : (t ++ s.dropWhile p).getLast? = s.getLast? := by rw [ht]
  rw [List.getLast?_append] at h2
  cases hl : (s.dropWhile p).getLast? with
  | none => exact absurd (List.getLast?_eq_none_iff.mp hl) h
  | some c =>
    rw [hl] at h2
    exact h2

theorem pyStrip_eq_self {s : List Char}
    (h1 : ∀ c, s.head? = some c → isPySpace c = false)
    (h2 : ∀ c, s.getLast? = some c → isPySpace c = false) :
    pyStrip s = s := by
  unfold pyStrip
  rw [dropWhile_eq_self_of_head h1]
  rw [dropWhile_eq_self_of_head (by
    intro c hc
    rw [List.head?_reverse] at hc
    exact h2 c hc)]
  exact List.reverse_reverse s

theorem pyStrip_head {s : List Char} :
    ∀ c, (pyStrip s).head? = some c → isPySpace c = false := by
  intro c h
  unfold pyStrip at h
  rw [List.head?_reverse] at h
  by_cases hn : ((s.dropWhile isPySpace).reverse.dropWhile isPySpace) = []
  · rw [hn] at h
    simp at h
  · rw [getLast?_dropWhile hn, List.getLast?_reverse] at h
    exact head?_dropWhile_not s c h

theorem pyStrip_last {s : List Char} :
    ∀ c, (pyStrip s).getLast? = some c → isPySpace c = false := by
  intro c h
  unfold pyStrip at h
  rw [List.getLast?_reverse] at h
  exact head?_dropWhile_not _ c h

theorem mem_pyStrip {c : Char} {s : List Char} (h : c ∈ pyStrip s) : c ∈ s := by
  unfold pyStrip at h
  rw [List.mem_reverse] at h
  have h2 := (List.dropWhile_sublist (l := (s.dropWhile isPySpace).reverse)
    isPySpace).mem h
  rw [List.mem_reverse] at h2
  exact (List.dropWhile_sublist isPySpace).mem h2

theorem map_eq_self_of {f : Char → Char} {s : List Char}
    (h : ∀ c ∈ s, f c = c) : s.map f = s := by
  rw [List.map_congr_left h]
  exact List.map_id s

theorem upperMap_idem (s : List Char) : upperMap (upperMap s) = upperMap s := by
  unfold upperMap
  rw [List.map_map]
  apply List.map_congr_left
  intro c _
  exact toUpper_idem c

end ThreeInOne

/-!
## Foundation lemmas: run replacement
-/

namespace ThreeInOne

theorem mem_replaceRunsAux {p : Char → Bool} {r : Char} {c : Char} :
    ∀ {b : Bool} {s : List Char}, c ∈ replaceRunsAux p r b s →
      (c ∈ s ∧ p c = false) ∨ c = r := by
  intro b s
  induction s generalizing b with
  | nil => intro h; simp [replaceRunsAux] at h
  | cons a t ih =>
    intro h
    rw [replaceRunsAux] at h
    by_cases ha : p a
    · rw [if_pos ha] at h
      cases b with
      | true =>
        rw [if_pos rfl] at h
        rcases ih h with h1 | h1
        · exact Or.inl ⟨List.mem_cons_of_mem a h1.1, h1.2⟩
        · exact Or.inr h1
      | false =>
        rw [if_neg (by simp)] at h
        simp only [List.mem_cons] at h
        rcases h with h | h
        · exact Or.inr h
        · rcases ih h with h1 | h1
          · exact Or.inl ⟨List.mem_cons_of_mem a h1.1, h1.2⟩
          · exact Or.inr h1
    · rw [if_neg ha] at h
      simp only [List.mem_cons] at h
      rcases h with h | h
      · exact Or.inl ⟨h ▸ List.mem_cons_self a t, h ▸ Bool.eq_false_iff.mpr ha⟩
      · rcases ih h with h1 | h1
        · exact Or.inl ⟨List.mem_cons_of_mem a h1.1, h1.2⟩
        · exact Or.inr h1

theorem head?_replaceRunsAux_true {p : Char → Bool} {r : Char} :
    ∀ {s : List Char} {d : Char},
      (replaceRunsAux p r true s).head? = some d → p d = false := by
  intro s
  induction s with
  | nil => intro d h; simp [replaceRunsAux] at h
  | cons a t ih =>
    intro d h
    rw [replaceRunsAux] at h
    by_cases ha : p a
    · rw [if_pos ha] at h
      exact ih h
    · rw [if_neg ha] at h
      simp only [List.head?_cons, Option.some.injEq] at h
      exact h ▸ Bool.eq_false_iff.mpr ha

theorem noDoubleP_tail {p : Char → Bool} {a : Char} {s : List Char}
    (h : noDoubleP p (a :: s) = true) : noDoubleP p s = true := by
  cases s with
  | nil => rfl
  | cons b t =>
    rw [noDoubleP] at h
    exact (Bool.and_eq_true_iff.mp h).2

theorem noDoubleP_cons_of {p : Char → Bool} {a : Char} {s : List Char}
    (h1 : noDoubleP p s = true)
    (h2 : ∀ d, s.head? = some d → (p a && p d) = false) :
    noDoubleP p (a :: s) = true := by
  cases s with
  | nil => rfl
  | cons b t =>
    rw [noDoubleP]
    exact Bool.and_eq_true_iff.mpr ⟨by simp [h2 b rfl], h1⟩

theorem noDoubleP_replaceRunsAux {p : Char → Bool} {r : Char} :
    ∀ (b : Bool) (s : List Char), noDoubleP p (replaceRunsAux p r b s) = true := by
  intro b s
  induction s generalizing b with
  | nil => rfl
  | cons a t ih =>
    rw [replaceRunsAux]
    by_cases ha : p a
    · rw [if_pos ha]
      cases b with
      | true => exact ih true
      | false =>
        apply noDoubleP_cons_of (ih true)
        intro d hd
        rw [head?_replaceRunsAux_true hd]
        exact Bool.and_false _
    · rw [if_neg ha]
      apply noDoubleP_cons_of (ih false)
      intro d _
      rw [Bool.eq_false_iff.mpr ha]
      exact Bool.false_and _

theorem replaceRunsAux_true_of_head {p : Char → Bool} {r : Char}
    {s : List Char} (h : ∀ d, s.head? = some d → p d = false) :
    replaceRunsAux p r true s = replaceRunsAux p r false s := by
  cases s with
  | nil => rfl
  | cons a t =>
    rw [replaceRunsAux, replaceRunsAux, if_neg (by simp [h a rfl]),
      if_neg (by simp [h a rfl])]

theorem replaceRunsAux_eq_self {p : Char → Bool} {r : Char} :
    ∀ {s : List Char}, (∀ c ∈ s, p c = true → c = r) →
      noDoubleP p s = true → replaceRunsAux p r false s = s := by
  intro s
  induction s with
  | nil => intro _ _; rfl
  | cons a t ih =>
    intro hr hd
    rw [replaceRunsAux]
    by_cases ha : p a
    · rw [if_pos ha]
      have hat : replaceRunsAux p r true t = replaceRunsAux p r false t := by
        apply replaceRunsAux_true_of_head
        intro d hdt
        cases t with
        | nil => simp at hdt
        | cons b u =>
          simp only [List.head?_cons, Option.some.injEq] at hdt
          rw [noDoubleP] at hd
          have := (Bool.and_eq_true_iff.mp hd).1
          rw [ha] at this
          simp only [Bool.true_and, Bool.not_eq_true'] at this
          exact hdt ▸ this
      rw [hat, ih (fun c hc hpc => hr c (List.mem_cons_of_mem a hc) hpc)
        (noDoubleP_tail hd)]
      rw [hr a (List.mem_cons_self a t) ha]
      simp
    · rw [if_neg ha]
      rw [ih (fun c hc hpc => hr c (List.mem_cons_of_mem a hc) hpc)
        (noDoubleP_tail hd)]

theorem replaceRunsAux_all_false {p : Char → Bool} {r : Char} :
    ∀ {b : Bool} {s : List Char}, (∀ c ∈ s, p c = false) →
      replaceRunsAux p r b s = s := by
  intro b s
  induction s generalizing b with
  | nil => intro _; rfl
  | cons a t ih =>
    intro h
    rw [replaceRunsAux, if_neg (by simp [h a (List.mem_cons_self a t)]),
      ih (fun c hc => h c (List.mem_cons_of_mem a hc))]

theorem replaceRunsAux_ne_nil {p : Char → Bool} {r : Char} :
    ∀ {b : Bool} {s : List Char} {c : Char}, c ∈ s → p c = false →
      replaceRunsAux p r b s ≠ [] := by
  intro b s
  induction s generalizing b with
  | nil => intro c hc; simp at hc
  | cons a t ih =>
    intro c hc hpc
    rw [replaceRunsAux]
    by_cases ha : p a
    · rw [if_pos ha]
      have hct : c ∈ t := by
        rcases List.mem_cons.mp hc with h | h
        · rw [h] at hpc; rw [hpc] at ha; exact absurd ha (by simp)
        · exact h
      cases b with
      | true => exact ih hct hpc
      | false => simp
    · rw [if_neg ha]
      simp

theorem mem_of_getLast?_eq {z : Char} :
    ∀ {s : List Char}, s.getLast? = some z → z ∈ s := by
  intro s
  induction s with
  | nil => intro h; simp at h
  | cons a t ih =>
    intro h
    cases t with
    | nil =>
      simp only [List.getLast?_singleton, Option.some.injEq] at h
      exact h ▸ List.mem_singleton_self a
    | cons b u =>
      rw [List.getLast?_cons_cons] at h
      exact List.mem_cons_of_mem a (ih h)

theorem getLast?_replaceRunsAux {p : Char → Bool} {r : Char} :
    ∀ {b : Bool} {s : List Char} {z : Char}, s.getLast? = some z →
      p z = false → (replaceRunsAux p r b s).getLast? = some z := by
  intro b s
  induction s generalizing b with
  | nil => intro z hz; simp at hz
  | cons a t ih =>
    intro z hz hpz
    rw [replaceRunsAux]
    cases t with
    | nil =>
      simp only [List.getLast?_singleton, Option.some.injEq] at hz
      subst hz
      rw [if_neg (by simp [hpz])]
      rfl
    | cons b2 u =>
      have hzt : (b2 :: u).getLast? = some z := by
        rw [List.getLast?_cons_cons] at hz
        exact hz
      have hne : ∀ b3 : Bool, replaceRunsAux p r b3 (b2 :: u) ≠ [] :=
        fun b3 => replaceRunsAux_ne_nil (mem_of_getLast?_eq hzt) hpz
      by_cases ha : p a
      · rw [if_pos ha]
        cases b with
        | true =>
          rw [if_pos rfl]
          exact ih hzt hpz
        | false =>
          rw [if_neg (by simp)]
          cases he : replaceRunsAux p r true (b2 :: u) with
          | nil => exact absurd he (hne true)
          | cons e es =>
            rw [List.getLast?_cons_cons, ← he, ih hzt hpz]
      · rw [if_neg ha]
        cases he : replaceRunsAux p r false (b2 :: u) with
        | nil => exact absurd he (hne false)
        | cons e es =>
          rw [List.getLast?_cons_cons, ← he, ih hzt hpz]

end ThreeInOne

/-!
## Foundation lemmas: word-bounded substitution and the two pipelines
-/

namespace ThreeInOne

theorem subWord_nil (w0 : Char) (wr : List Char) (prev : Option Char) :
    subWord w0 wr prev [] = [] := rfl

theorem subWordAux_eq_self {w0 : Char} {wr : List Char} :
    ∀ (fuel : Nat) {prev : Option Char} {s : List Char},
      hasWordMatch w0 wr prev s = false → subWordAux w0 wr fuel prev s = s := by
  intro fuel
  induction fuel with
  | zero => intro prev s _; rfl
  | succ n ih =>
    intro prev s h
    cases s with
    | nil => rfl
    | cons c cs =>
      rw [hasWordMatch] at h
      rcases Bool.or_eq_false_iff.mp h with ⟨h1, h2⟩
      rw [subWordAux, if_neg (by rw [h1]; exact Bool.false_ne_true), ih h2]

theorem subWord_eq_self {w0 : Char} {wr : List Char} {prev : Option Char}
    {s : List Char} (h : hasWordMatch w0 wr prev s = false) :
    subWord w0 wr prev s = s :=
  subWordAux_eq_self s.length h

theorem removeSuffixes_nil : MasterSrc.removeSuffixes [] = [] := by
  unfold MasterSrc.removeSuffixes
  rw [subWord_nil, subWord_nil, subWord_nil, subWord_nil, subWord_nil]

theorem utilsNormCore_claim_order (s : List Char) :
    UtilsSrc.normCore s =
      replaceRuns isPySpace ' ' (pyStrip (removeUtilPunct (upperMap s))) := by
  unfold UtilsSrc.normCore
  rw [upperMap_removeUtilPunct, pyStrip_upperMap]

theorem master_normalize_eq_core (s : List Char) :
    MasterSrc.normalize_name (some s) = MasterSrc.normCore s := by
  show (if pyStrip s = [] then [] else MasterSrc.normCore s) = MasterSrc.normCore s
  by_cases h : pyStrip s = []
  · rw [if_pos h]
    unfold MasterSrc.normCore
    rw [pyStrip_upperMap, h]
    show [] = pyStrip (MasterSrc.removeSuffixes
      (replaceRuns isMasterPunct ' ' (replaceRuns isPySpace ' ' (upperMap []))))
    rw [show upperMap [] = [] from rfl]
    rw [show replaceRuns isPySpace ' ' [] = [] from rfl]
    rw [show replaceRuns isMasterPunct ' ' [] = [] from rfl]
    rw [removeSuffixes_nil]
    rfl
  · rw [if_neg h]

end ThreeInOne

/-!
## Foundation lemmas: idempotence of the utils normalizer
-/

namespace ThreeInOne

theorem head?_replaceRunsAux_false_of {p : Char → Bool} {r : Char}
    {s : List Char} {d : Char} (hd : s.head? = some d) (hpd : p d = false) :
    (replaceRunsAux p r false s).head? = some d := by
  cases s with
  | nil => simp at hd
  | cons a t =>
    simp only [List.head?_cons, Option.some.injEq] at hd
    subst hd
    rw [replaceRunsAux, if_neg (by simp [hpd])]
    rfl

theorem mem_utilsNormCore {c : Char} {s : List Char}
    (h : c ∈ UtilsSrc.normCore s) :
    isUtilPunct c = false ∧ Char.toUpper c = c := by
  unfold UtilsSrc.normCore replaceRuns at h
  rcases mem_replaceRunsAux h with ⟨h1, _⟩ | h1
  · unfold upperMap at h1
    rcases List.mem_map.mp h1 with ⟨d, hd, hdc⟩
    have hd2 : d ∈ removeUtilPunct s := mem_pyStrip hd
    have hd3 : isUtilPunct d = false := by
      unfold removeUtilPunct at hd2
      have := (List.mem_filter.mp hd2).2
      simpa using this
    subst hdc
    exact ⟨by rw [isUtilPunct_toUpper]; exact hd3, toUpper_idem d⟩
  · subst h1
    exact ⟨by decide, toUpper_space⟩

theorem utilsNormCore_head {s : List Char} :
    ∀ c, (UtilsSrc.normCore s).head? = some c → isPySpace c = false := by
  intro c h
  unfold UtilsSrc.normCore replaceRuns at h
  cases ht : (upperMap (pyStrip (removeUtilPunct s))).head? with
  | none =>
    rw [List.head?_eq_none_iff.mp ht] at h
    simp [replaceRunsAux] at h
  | some d =>
    have hpd : isPySpace d = false := by
      unfold upperMap at ht
      rw [List.head?_map] at ht
      cases hh : (pyStrip (removeUtilPunct s)).head? with
      | none => rw [hh] at ht; simp at ht
      | some d0 =>
        rw [hh] at ht
        simp only [Option.map_some', Option.map_some, Option.some.injEq] at ht
        rw [← ht, isPySpace_toUpper]
        exact pyStrip_head d0 hh
    rw [head?_replaceRunsAux_false_of ht hpd] at h
    simp only [Option.some.injEq] at h
    exact h ▸ hpd

theorem utilsNormCore_last {s : List Char} :
    ∀ c, (UtilsSrc.normCore s).getLast? = some c → isPySpace c = false := by
  intro c h
  unfold UtilsSrc.normCore replaceRuns at h
  cases ht : (upperMap (pyStrip (removeUtilPunct s))).getLast? with
  | none =>
    rw [List.getLast?_eq_none_iff.mp ht] at h
    simp [replaceRunsAux] at h
  | some z =>
    have hpz : isPySpace z = false := by
      unfold upperMap at ht
      rw [List.getLast?_map] at ht
      cases hh : (pyStrip (removeUtilPunct s)).getLast? with
      | none => rw [hh] at ht; simp at ht
      | some z0 =>
        rw [hh] at ht
        simp only [Option.map_some', Option.map_some, Option.some.injEq] at ht
        rw [← ht, isPySpace_toUpper]
        exact pyStrip_last z0 hh
    rw [getLast?_replaceRunsAux ht hpz] at h
    simp only [Option.some.injEq] at h
    exact h ▸ hpz

theorem utilsNormCore_spaces_blank {s : List Char} :
    ∀ c ∈ UtilsSrc.normCore s, isPySpace c = true → c = ' ' := by
  intro c hc hsp
  unfold UtilsSrc.normCore replaceRuns at hc
  rcases mem_replaceRunsAux hc with ⟨_, h2⟩ | h2
  · rw [hsp] at h2; exact absurd h2 (by simp)
  · exact h2

theorem utilsNormCore_noDouble (s : List Char) :
    noDoubleP isPySpace (UtilsSrc.normCore s) = true := by
  unfold UtilsSrc.normCore replaceRuns
  exact noDoubleP_replaceRunsAux false _

theorem utilsNormCore_idem (s : List Char) :
    UtilsSrc.normCore (UtilsSrc.normCore s) = UtilsSrc.normCore s := by
  have hpunct : removeUtilPunct (UtilsSrc.normCore s) = UtilsSrc.normCore s := by
    unfold removeUtilPunct
    exact List.filter_eq_self.mpr
      (fun c hc => by simp [(mem_utilsNormCore hc).1])
  have hstrip : pyStrip (UtilsSrc.normCore s) = UtilsSrc.normCore s :=
    pyStrip_eq_self utilsNormCore_head utilsNormCore_last
  have hupper : upperMap (UtilsSrc.normCore s) = UtilsSrc.normCore s :=
    map_eq_self_of (fun c hc => (mem_utilsNormCore hc).2)
  have hcollapse : replaceRuns isPySpace ' ' (UtilsSrc.normCore s) =
      UtilsSrc.normCore s := by
    unfold replaceRuns
    exact replaceRunsAux_eq_self utilsNormCore_spaces_blank
      (utilsNormCore_noDouble s)
  conv_lhs => rw [UtilsSrc.normCore]
  rw [hpunct, hstrip, hupper, hcollapse]

end ThreeInOne

/-!
## Foundation lemmas: canonical names are fixed by both normalizers
-/

namespace ThreeInOne

theorem cleanName_spec {s : List Char} (h : cleanName s = true) :
    s ≠ [] ∧
    (∀ c ∈ s, (65 ≤ c.toNat ∧ c.toNat ≤ 90) ∨ c.toNat = 32) ∧
    (∀ c, s.head? = some c → isPySpace c = false) ∧
    (∀ c, s.getLast? = some c → isPySpace c = false) ∧
    noDoubleP isPySpace s = true ∧
    hasWordMatch 'J' ['R'] none s = false ∧
    hasWordMatch 'S' ['R'] none s = false ∧
    hasWordMatch 'I' ['I', 'I'] none s = false ∧
    hasWordMatch 'I' ['I'] none s = false ∧
    hasWordMatch 'I' ['V'] none s = false := by
  unfold cleanName at h
  simp only [Bool.and_eq_true, Bool.not_eq_true'] at h
  obtain ⟨⟨⟨⟨⟨⟨⟨⟨⟨h1, h2⟩, h3⟩, h4⟩, h5⟩, h6⟩, h7⟩, h8⟩, h9⟩, h10⟩ := h
  refine ⟨List.isEmpty_eq_false.mp h1, ?_, ?_, ?_, h5, h6, h7, h8, h9, h10⟩
  · intro c hc
    have := List.all_eq_true.mp h2 c hc
    exact of_decide_eq_true this
  · intro c hc
    rw [hc] at h3
    simpa using h3
  · intro c hc
    rw [hc] at h4
    simpa using h4

theorem utils_id_of_clean {s : List Char} (h : cleanName s = true) :
    UtilsSrc.normCore s = s := by
  obtain ⟨_, h2, h3, h4, h5, _⟩ := cleanName_spec h
  have hpunct : removeUtilPunct s = s := by
    unfold removeUtilPunct
    apply List.filter_eq_self.mpr
    intro c hc
    have := h2 c hc
    simp only [Bool.not_eq_true', isUtilPunct]
    rw [decide_eq_false_iff_not]
    omega
  have hstrip : pyStrip s = s := pyStrip_eq_self h3 h4
  have hupper : upperMap s = s := by
    apply map_eq_self_of
    intro c hc
    exact toUpper_eq_self (by have := h2 c hc; omega)
  have hcollapse : replaceRuns isPySpace ' ' s = s := by
    unfold replaceRuns
    apply replaceRunsAux_eq_self _ h5
    intro c hc hsp
    have hn := h2 c hc
    have h32 : c.toNat = 32 := by
      unfold isPySpace at hsp
      have := of_decide_eq_true hsp
      omega
    exact char_eq_of_toNat_eq h32
  rw [UtilsSrc.normCore, hpunct, hstrip, hupper, hcollapse]

theorem master_id_of_clean {s : List Char} (h : cleanName s = true) :
    MasterSrc.normalize_name (some s) = s := by
  obtain ⟨h1, h2, h3, h4, h5, h6, h7, h8, h9, h10⟩ := cleanName_spec h
  have hstrip : pyStrip s = s := pyStrip_eq_self h3 h4
  have hupper : upperMap s = s := by
    apply map_eq_self_of
    intro c hc
    exact toUpper_eq_self (by have := h2 c hc; omega)
  have hcollapse : replaceRuns isPySpace ' ' s = s := by
    unfold replaceRuns
    apply replaceRunsAux_eq_self _ h5
    intro c hc hsp
    have hn := h2 c hc
    have h32 : c.toNat = 32 := by
      unfold isPySpace at hsp
      have := of_decide_eq_true hsp
      omega
    exact char_eq_of_toNat_eq h32
  have hmaster : replaceRuns isMasterPunct ' ' s = s := by
    unfold replaceRuns
    apply replaceRunsAux_all_false
    intro c hc
    have := h2 c hc
    unfold isMasterPunct
    rw [decide_eq_false_iff_not]
    omega
  have hsuffix : MasterSrc.removeSuffixes s = s := by
    unfold MasterSrc.removeSuffixes
    rw [subWord_eq_self h6, subWord_eq_self h7, subWord_eq_self h8,
      subWord_eq_self h9, subWord_eq_self h10]
  rw [master_normalize_eq_core, MasterSrc.normCore, hupper, hstrip, hcollapse,
    hmaster, hsuffix, hstrip]

end ThreeInOne

/-!
## Foundation lemmas: fuzzy best candidate, dictionaries, counting
-/

namespace ThreeInOne.MasterSrc

theorem foldl_best (scorer : List Char → List Char → Nat) (q : List Char) :
    ∀ (ks : List (List Char)) (b : List Char × Nat),
      (ks.foldl
        (fun best k2 =>
          if scorer q k2 > best.2 then (k2, scorer q k2) else best) b = b ∨
        ∃ k ∈ ks, ks.foldl
          (fun best k2 =>
            if scorer q k2 > best.2 then (k2, scorer q k2) else best) b =
          (k, scorer q k)) ∧
      b.2 ≤ (ks.foldl
        (fun best k2 =>
          if scorer q k2 > best.2 then (k2, scorer q k2) else best) b).2 ∧
      ∀ k ∈ ks, scorer q k ≤ (ks.foldl
        (fun best k2 =>
          if scorer q k2 > best.2 then (k2, scorer q k2) else best) b).2 := by
  intro ks
  induction ks with
  | nil =>
    intro b
    refine ⟨Or.inl rfl, Nat.le_refl _, ?_⟩
    intro k hk
    simp at hk
  | cons k2 kt ih =>
    intro b
    rw [List.foldl_cons]
    obtain ⟨horig, hle, hall⟩ :=
      ih (if scorer q k2 > b.2 then (k2, scorer q k2) else b)
    by_cases hc : scorer q k2 > b.2
    · rw [if_pos hc] at horig hle hall ⊢
      refine ⟨?_, ?_, ?_⟩
      · rcases horig with h | ⟨k, hk, hkeq⟩
        · exact Or.inr ⟨k2, List.mem_cons_self k2 kt, h⟩
        · exact Or.inr ⟨k, List.mem_cons_of_mem k2 hk, hkeq⟩
      · exact Nat.le_trans (Nat.le_of_lt hc) hle
      · intro k hk
        rcases List.mem_cons.mp hk with h | h
        · exact h ▸ hle
        · exact hall k h
    · rw [if_neg hc] at horig hle hall ⊢
      refine ⟨?_, hle, ?_⟩
      · rcases horig with h | ⟨k, hk, hkeq⟩
        · exact Or.inl h
        · exact Or.inr ⟨k, List.mem_cons_of_mem k2 hk, hkeq⟩
      · intro k hk
        rcases List.mem_cons.mp hk with h | h
        · exact h ▸ Nat.le_trans (Nat.le_of_not_lt hc) hle
        · exact hall k h

theorem extractOne_spec (scorer : List Char → List Char → Nat)
    (q : List Char) {keys : List (List Char)} (h : keys ≠ []) :
    ∃ bk bs, extractOne scorer q keys = some (bk, bs) ∧ bk ∈ keys ∧
      scorer q bk = bs ∧ ∀ k ∈ keys, scorer q k ≤ bs := by
  cases keys with
  | nil => exact absurd rfl h
  | cons k0 kt =>
    obtain ⟨horig, hle0, hall⟩ := foldl_best scorer q kt (k0, scorer q k0)
    set res := kt.foldl
      (fun best k2 =>
        if scorer q k2 > best.2 then (k2, scorer q k2) else best)
      (k0, scorer q k0) with hres
    refine ⟨res.1, res.2, ?_, ?_, ?_, ?_⟩
    · rw [extractOne]
    · rcases horig with hr | ⟨k, hk, hkeq⟩
      · rw [hr]; exact List.mem_cons_self k0 kt
      · rw [hkeq]; exact List.mem_cons_of_mem k0 hk
    · rcases horig with hr | ⟨k, hk, hkeq⟩
      · rw [hr]
      · rw [hkeq]
    · intro k hk
      rcases List.mem_cons.mp hk with hh | hh
      · subst hh
        exact hle0
      · exact hall k hh

theorem dictFind_of_mem_keys :
    ∀ {d : List (List Char × LookupRecord)} {k : List Char},
      k ∈ d.map Prod.fst → ∃ v, dictFind d k = some v := by
  intro d
  induction d with
  | nil => intro k h; simp at h
  | cons e t ih =>
    intro k h
    by_cases he : e.1 = k
    · refine ⟨e.2, ?_⟩
      unfold dictFind
      rw [List.find?_cons_of_pos _ (by simp [he])]
      rfl
    · have hk : k ∈ t.map Prod.fst := by
        rw [List.map_cons] at h
        rcases List.mem_cons.mp h with hh | hh
        · exact absurd hh.symm he
        · exact hh
      obtain ⟨v, hv⟩ := ih hk
      refine ⟨v, ?_⟩
      unfold dictFind at hv ⊢
      rw [List.find?_cons_of_neg _ (by simp [he])]
      exact hv

end ThreeInOne.MasterSrc

namespace ThreeInOne

theorem countP_add_countP_not {α : Type} (p : α → Bool) (l : List α) :
    l.countP p + l.countP (fun a => !p a) = l.length := by
  induction l with
  | nil => rfl
  | cons a t ih =>
    rw [List.countP_cons, List.countP_cons, List.length_cons]
    by_cases h : p a
    · rw [if_pos h, if_neg (by simp [h])]
      omega
    · rw [if_neg h, if_pos (by simp [h])]
      omega

theorem countP_four_partition {α : Type} (p1 p2 p3 p4 : α → Bool)
    (l : List α)
    (h : ∀ a ∈ l,
      (if p1 a = true then 1 else 0) + (if p2 a = true then 1 else 0) +
        (if p3 a = true then 1 else 0) + (if p4 a = true then 1 else 0) = 1) :
    l.countP p1 + l.countP p2 + l.countP p3 + l.countP p4 = l.length := by
  induction l with
  | nil => rfl
  | cons a t ih =>
    rw [List.countP_cons, List.countP_cons, List.countP_cons,
      List.countP_cons, List.length_cons]
    have ha := h a (List.mem_cons_self a t)
    have ht := ih (fun b hb => h b (List.mem_cons_of_mem a hb))
    omega

end ThreeInOne

/-!
## Foundation lemmas: reconciliation
-/

namespace ThreeInOne.MasterSrc

theorem matched_fst_iff {α : Type} [DecidableEq α]
    {left right : List (DataRow α)} {l : DataRow α} (hl : l ∈ left) :
    (matched_df left right).any (fun pr => decide (pr.1 = l)) = true ↔
      right.any (fun r => decide (rowKey r = rowKey l)) = true := by
  constructor
  · intro h
    obtain ⟨pr, hpr, hfst⟩ := List.any_eq_true.mp h
    obtain ⟨a, _, hpr2⟩ := List.mem_flatMap.mp hpr
    obtain ⟨r, hr, hpr3⟩ := List.mem_map.mp hpr2
    obtain ⟨hrr, hrk⟩ := List.mem_filter.mp hr
    have hal : a = l := by
      have := of_decide_eq_true hfst
      rw [← hpr3] at this
      exact this
    apply List.any_eq_true.mpr
    refine ⟨r, hrr, ?_⟩
    rw [hal] at hrk
    exact hrk
  · intro h
    obtain ⟨r, hr, hkey⟩ := List.any_eq_true.mp h
    apply List.any_eq_true.mpr
    refine ⟨(l, r), ?_, by simp⟩
    apply List.mem_flatMap.mpr
    refine ⟨l, hl, ?_⟩
    apply List.mem_map.mpr
    exact ⟨r, List.mem_filter.mpr ⟨hr, hkey⟩, rfl⟩

theorem matched_snd_iff {α : Type} [DecidableEq α]
    {left right : List (DataRow α)} {r : DataRow α} (hr : r ∈ right) :
    (matched_df left right).any (fun pr => decide (pr.2 = r)) = true ↔
      left.any (fun l => decide (rowKey l = rowKey r)) = true := by
  constructor
  · intro h
    obtain ⟨pr, hpr, hsnd⟩ := List.any_eq_true.mp h
    obtain ⟨a, hal, hpr2⟩ := List.mem_flatMap.mp hpr
    obtain ⟨x, hx, hpr3⟩ := List.mem_map.mp hpr2
    obtain ⟨_, hxk⟩ := List.mem_filter.mp hx
    have hxr : x = r := by
      have := of_decide_eq_true hsnd
      rw [← hpr3] at this
      exact this
    apply List.any_eq_true.mpr
    refine ⟨a, hal, ?_⟩
    rw [hxr] at hxk
    apply decide_eq_true
    exact (of_decide_eq_true hxk).symm
  · intro h
    obtain ⟨a, hal, hkey⟩ := List.any_eq_true.mp h
    apply List.any_eq_true.mpr
    refine ⟨(a, r), ?_, by simp⟩
    apply List.mem_flatMap.mpr
    refine ⟨a, hal, ?_⟩
    apply List.mem_map.mpr
    refine ⟨r, List.mem_filter.mpr ⟨hr, ?_⟩, rfl⟩
    apply decide_eq_true
    exact (of_decide_eq_true hkey).symm

theorem mem_only_in_file1_iff {α : Type} [DecidableEq α]
    {left right : List (DataRow α)} {l : DataRow α} :
    l ∈ only_in_file1 left right ↔
      l ∈ left ∧ right.any (fun r => decide (rowKey r = rowKey l)) = false := by
  unfold only_in_file1
  rw [List.mem_filter]
  constructor
  · rintro ⟨h1, h2⟩
    exact ⟨h1, by simpa using h2⟩
  · rintro ⟨h1, h2⟩
    exact ⟨h1, by simpa using h2⟩

theorem mem_only_in_file2_iff {α : Type} [DecidableEq α]
    {left right : List (DataRow α)} {r : DataRow α} :
    r ∈ only_in_file2 left right ↔
      r ∈ right ∧ left.any (fun l => decide (rowKey l = rowKey r)) = false := by
  unfold only_in_file2
  rw [List.mem_filter]
  constructor
  · rintro ⟨h1, h2⟩
    exact ⟨h1, by simpa using h2⟩
  · rintro ⟨h1, h2⟩
    exact ⟨h1, by simpa using h2⟩

end ThreeInOne.MasterSrc

/-!
## Claim theorems
-/

namespace ThreeInOne

/-- Claim C1, counterexample: neither `normalize_name` computes the claimed
five-step algorithm.  `utils_threeinone.normalize_name` keeps the trailing
generational suffix of `"JOHN SMITH JR"` (it performs no suffix stripping),
and `MASTER_3in1Tool_v2.normalize_name` turns the hyphen of `"A-B"` into a
space instead of keeping it. -/
theorem C1_counterexample :
    UtilsSrc.normalize_name (some ("JOHN SMITH JR".data)) ≠
      ClaimSpec.claimedNormalize ("JOHN SMITH JR".data) ∧
    MasterSrc.normalize_name (some ("A-B".data)) ≠
      ClaimSpec.claimedNormalize ("A-B".data) := by
  exact ⟨by decide, by decide⟩

/-- Claim C1 (amended): for every input string,
`utils_threeinone.normalize_name` returns the result of (1) uppercasing,
(2) removing periods, commas and apostrophes (keeping hyphens),
(3) stripping leading/trailing whitespace, (4) collapsing each whitespace
run to a single space — with no suffix stripping; and
`MASTER_3in1Tool_v2.normalize_name` returns the result of uppercasing and
stripping, collapsing whitespace runs, replacing each run of commas,
hyphens and periods by a single space, deleting every word-bounded
occurrence of JR, SR, III, II, IV anywhere in the string, and stripping
again (its blank-input guard is redundant for string inputs). -/
theorem C1_normalize_algorithm :
    ∀ s : List Char,
      UtilsSrc.normalize_name (some s) =
        replaceRuns isPySpace ' ' (pyStrip (removeUtilPunct (upperMap s))) ∧
      MasterSrc.normalize_name (some s) =
        pyStrip (MasterSrc.removeSuffixes (replaceRuns isMasterPunct ' '
          (replaceRuns isPySpace ' ' (pyStrip (upperMap s))))) := by
  intro s
  constructor
  · exact utilsNormCore_claim_order s
  · rw [master_normalize_eq_core]
    rfl

/-- Claim C2, counterexample: `MASTER_3in1Tool_v2.normalize_name` is not
idempotent.  On `"A - B"` the punctuation pass turns the hyphen into a
space after whitespace has already been collapsed, producing `"A   B"`,
which a second application collapses to `"A B"`. -/
theorem C2_counterexample :
    MasterSrc.normalize_name
        (some (MasterSrc.normalize_name (some ("A - B".data)))) ≠
      MasterSrc.normalize_name (some ("A - B".data)) := by
  decide

/-- Claim C2 (amended): `utils_threeinone.normalize_name` is idempotent:
applying it to its own output (of any input, string or not) returns that
output unchanged.  (`MASTER_3in1Tool_v2.normalize_name` is not idempotent,
see the counterexample.) -/
theorem C2_utils_idempotent :
    ∀ x : Option (List Char),
      UtilsSrc.normalize_name (some (UtilsSrc.normalize_name x)) =
        UtilsSrc.normalize_name x := by
  intro x
  cases x with
  | none => rfl
  | some s => exact utilsNormCore_idem s

/-- Claim C3: whenever `existing_id` is present and non-blank after
trimming, `match_employee_id` returns that id with status `AlreadyHadId`
and confidence 100 and bumps only the `already_had_id` counter — whatever
the name, the index contents, the threshold and the scorer (so even when
the name would exact- or fuzzy-match). -/
theorem C3_existing_id_precedence :
    ∀ (scorer : List Char → List Char → Nat) (e : MasterSrc.MatchingEngine)
      (name : Option (List Char)) (eid : List Char),
      pyStrip eid ≠ [] →
      MasterSrc.match_employee_id scorer e name (some eid) =
        ((some eid, MasterSrc.MatchStatus.alreadyHadId, 100),
          { e with match_stats := { e.match_stats with
              already_had_id := e.match_stats.already_had_id + 1 } }) := by
  intro scorer e name eid h
  have hp : MasterSrc.presentNonBlank (some eid) = true := by
    unfold MasterSrc.presentNonBlank
    simp [List.isEmpty_eq_false, h]
  unfold MasterSrc.match_employee_id
  rw [if_pos hp]

/-- Witness for C3: a concrete engine whose index would exact-match the
query name, yet the existing id `"E123"` wins. -/
theorem C3_witness :
    MasterSrc.match_employee_id (fun _ _ => 0)
      ⟨80, [("JOHN SMITH".data, ⟨"E9".data, "John Smith".data⟩)],
        ⟨0, 0, 0, 0⟩⟩
      (some ("JOHN SMITH".data)) (some ("E123".data)) =
      ((some ("E123".data), MasterSrc.MatchStatus.alreadyHadId, 100),
        ⟨80, [("JOHN SMITH".data, ⟨"E9".data, "John Smith".data⟩)],
          ⟨0, 0, 0, 1⟩⟩) :=
  C3_existing_id_precedence (fun _ _ => 0)
    ⟨80, [("JOHN SMITH".data, ⟨"E9".data, "John Smith".data⟩)], ⟨0, 0, 0, 0⟩⟩
    (some ("JOHN SMITH".data)) ("E123".data) (by decide)

end ThreeInOne

namespace ThreeInOne

theorem dictFind_insert_ne {k k2 : List Char} {v : MasterSrc.LookupRecord}
    (hne : k ≠ k2) :
    ∀ {d : List (List Char × MasterSrc.LookupRecord)},
      MasterSrc.dictFind d k2 = none →
      MasterSrc.dictFind (MasterSrc.dictInsert k v d) k2 = none := by
  intro d
  induction d with
  | nil =>
    intro _
    unfold MasterSrc.dictInsert MasterSrc.dictFind
    rw [List.find?_cons_of_neg _ (by simp [hne])]
    rfl
  | cons e t ih =>
    intro h
    have hek2 : ¬(e.1 = k2) := by
      intro hcontra
      unfold MasterSrc.dictFind at h
      rw [List.find?_cons_of_pos _ (by simp [hcontra])] at h
      simp at h
    have ht : MasterSrc.dictFind t k2 = none := by
      unfold MasterSrc.dictFind at h ⊢
      rw [List.find?_cons_of_neg _ (by simp [hek2])] at h
      exact h
    unfold MasterSrc.dictInsert
    by_cases he : e.1 = k
    · rw [if_pos he]
      unfold MasterSrc.dictFind
      rw [List.find?_cons_of_neg _ (by simp [hne])]
      unfold MasterSrc.dictFind at ht
      exact ht
    · rw [if_neg he]
      unfold MasterSrc.dictFind
      rw [List.find?_cons_of_neg _ (by simp [hek2])]
      have h2 := ih ht
      unfold MasterSrc.dictFind at h2
      exact h2

theorem build_lookup_no_empty_key
    (rows : List (Option (List Char) × Option (List Char))) :
    MasterSrc.dictFind (MasterSrc.build_lookup rows) [] = none := by
  unfold MasterSrc.build_lookup
  have hstep : ∀ (rs : List (Option (List Char) × Option (List Char)))
      (d : List (List Char × MasterSrc.LookupRecord)),
      MasterSrc.dictFind d [] = none →
      MasterSrc.dictFind (rs.foldl
        (fun d row =>
          match row.1, row.2 with
          | some nm, some idv =>
            let key := MasterSrc.normalize_name (some nm)
            if key ≠ [] then MasterSrc.dictInsert key ⟨idv, nm⟩ d else d
          | _, _ => d)
        d) [] = none := by
    intro rs
    induction rs with
    | nil => intro d hd; exact hd
    | cons row rt ih =>
      intro d hd
      rw [List.foldl_cons]
      apply ih
      cases hrow1 : row.1 with
      | none => exact hd
      | some nm =>
        cases hrow2 : row.2 with
        | none => exact hd
        | some idv =>
          show MasterSrc.dictFind
            (if MasterSrc.normalize_name (some nm) ≠ [] then
              MasterSrc.dictInsert (MasterSrc.normalize_name (some nm))
                ⟨idv, nm⟩ d
            else d) [] = none
          by_cases hk : MasterSrc.normalize_name (some nm) ≠ []
          · rw [if_pos hk]
            exact dictFind_insert_ne hk hd
          · rw [if_neg hk]
            exact hd
  exact hstep rows [] rfl

/-- Claim C4, counterexample: the raw name `"."` normalizes to the empty
string, yet querying it (no existing id) does NOT return `InvalidName`:
the guard in `match_employee_id` tests the raw name for blankness, so the
query proceeds to fuzzy matching, yielding `NoMatch` under the default
threshold — and even a `FuzzyMatch` with a matched id when the configured
threshold is 0. -/
theorem C4_counterexample :
    MasterSrc.normalize_name (some (".".data)) = [] ∧
    (MasterSrc.match_employee_id (fun _ _ => 0)
      ⟨80, [("JOHN SMITH".data, ⟨"E1".data, "John Smith".data⟩)],
        ⟨0, 0, 0, 0⟩⟩
      (some (".".data)) none).1 = (none, MasterSrc.MatchStatus.noMatch, 0) ∧
    (MasterSrc.match_employee_id (fun _ _ => 0)
      ⟨0, [("JOHN SMITH".data, ⟨"E1".data, "John Smith".data⟩)],
        ⟨0, 0, 0, 0⟩⟩
      (some (".".data)) none).1 =
      (some ("E1".data), MasterSrc.MatchStatus.fuzzyMatch 0, 0) := by
  exact ⟨by decide, by decide, by decide⟩

/-- Claim C4 (amended): a raw name normalizing to the empty string is never
inserted into a lookup index by `build_lookup`; and, when `existing_id` is
absent or blank, `match_employee_id` returns status `InvalidName` exactly
when the RAW name is absent or blank after trimming — a non-blank raw name
whose normalization is empty is matched like any other and yields
`ExactMatch`, `FuzzyMatch` or `NoMatch` instead. -/
theorem C4_invalid_name_policy :
    (∀ rows : List (Option (List Char) × Option (List Char)),
      MasterSrc.dictFind (MasterSrc.build_lookup rows) [] = none) ∧
    (∀ (scorer : List Char → List Char → Nat) (e : MasterSrc.MatchingEngine)
      (name existing : Option (List Char)),
      MasterSrc.presentNonBlank existing = false →
      ((MasterSrc.match_employee_id scorer e name existing).1.2.1 =
          MasterSrc.MatchStatus.invalidName ↔
        MasterSrc.blankName name = true)) := by
  constructor
  · exact build_lookup_no_empty_key
  · intro scorer e name existing hp
    by_cases hb : MasterSrc.blankName name = true
    · unfold MasterSrc.match_employee_id
      rw [if_neg (by simp [hp]), if_pos hb]
      simp [hb]
    · have hstatus :
          (MasterSrc.match_employee_id scorer e name existing).1.2.1 ≠
            MasterSrc.MatchStatus.invalidName := by
        unfold MasterSrc.match_employee_id
        rw [if_neg (by simp [hp]), if_neg hb]
        split
        · simp
        · split
          · split
            · simp
            · simp
          · simp
      exact iff_of_false hstatus hb

/-- Witness for C4: the non-blank name `"."` (which normalizes to empty)
does not produce `InvalidName`. -/
theorem C4_witness :
    ((MasterSrc.match_employee_id (fun _ _ => 0)
        ⟨80, [("JOHN SMITH".data, ⟨"E1".data, "John Smith".data⟩)],
          ⟨0, 0, 0, 0⟩⟩
        (some (".".data)) none).1.2.1 =
      MasterSrc.MatchStatus.invalidName ↔
      MasterSrc.blankName (some (".".data)) = true) :=
  C4_invalid_name_policy.2 (fun _ _ => 0)
    ⟨80, [("JOHN SMITH".data, ⟨"E1".data, "John Smith".data⟩)], ⟨0, 0, 0, 0⟩⟩
    (some (".".data)) none (by decide)

end ThreeInOne

namespace ThreeInOne

theorem blankName_eq_false_of_norm_ne_nil {s : List Char}
    (h : MasterSrc.normalize_name (some s) ≠ []) :
    MasterSrc.blankName (some s) = false := by
  unfold MasterSrc.blankName
  rw [List.isEmpty_eq_false]
  intro hnil
  apply h
  show (if pyStrip s = [] then [] else MasterSrc.normCore s) = []
  rw [if_pos hnil]

/-- Claim C5: when `existing_id` is absent or blank, the normalized query
name is non-empty and not an exact key of the non-empty index,
`match_employee_id` computes the best-scoring index key (`bk`, with score
`bs` maximal over all keys) and returns, when `bs ≥ fuzzy_threshold`, a
`FuzzyMatch` carrying that key's record id with confidence exactly `bs`;
and when `bs < fuzzy_threshold`, `NoMatch` with no id and confidence 0.
Stated for every similarity scorer, since the metric itself
(`fuzz.token_sort_ratio` plus processing) lives in an external library. -/
theorem C5_fuzzy_threshold_boundary :
    ∀ (scorer : List Char → List Char → Nat) (e : MasterSrc.MatchingEngine)
      (s : List Char) (existing : Option (List Char)),
      MasterSrc.presentNonBlank existing = false →
      MasterSrc.normalize_name (some s) ≠ [] →
      MasterSrc.dictFind e.lookup_dict (MasterSrc.normalize_name (some s)) =
        none →
      e.lookup_dict ≠ [] →
      ∃ bk bs r,
        MasterSrc.extractOne scorer (MasterSrc.normalize_name (some s))
          (e.lookup_dict.map Prod.fst) = some (bk, bs) ∧
        bk ∈ e.lookup_dict.map Prod.fst ∧
        scorer (MasterSrc.normalize_name (some s)) bk = bs ∧
        (∀ k ∈ e.lookup_dict.map Prod.fst,
          scorer (MasterSrc.normalize_name (some s)) k ≤ bs) ∧
        MasterSrc.dictFind e.lookup_dict bk = some r ∧
        (e.fuzzy_threshold ≤ bs →
          (MasterSrc.match_employee_id scorer e (some s) existing).1 =
            (some r.id, MasterSrc.MatchStatus.fuzzyMatch bs, bs)) ∧
        (bs < e.fuzzy_threshold →
          (MasterSrc.match_employee_id scorer e (some s) existing).1 =
            (none, MasterSrc.MatchStatus.noMatch, 0)) := by
  intro scorer e s existing hp hnorm hfind hdict
  have hkeys : e.lookup_dict.map Prod.fst ≠ [] := by
    intro hcontra
    exact hdict (List.map_eq_nil_iff.mp hcontra)
  obtain ⟨bk, bs, hext, hmem, hscore, hmax⟩ :=
    MasterSrc.extractOne_spec scorer (MasterSrc.normalize_name (some s)) hkeys
  obtain ⟨r, hr⟩ := MasterSrc.dictFind_of_mem_keys hmem
  refine ⟨bk, bs, r, hext, hmem, hscore, hmax, hr, ?_, ?_⟩
  · intro hthr
    unfold MasterSrc.match_employee_id
    rw [if_neg (by simp [hp]),
      if_neg (by simp [blankName_eq_false_of_norm_ne_nil hnorm]),
      hfind, hext]
    show ((if bs ≥ e.fuzzy_threshold then _ else _) :
      (Option (List Char) × MasterSrc.MatchStatus × Nat) ×
        MasterSrc.MatchingEngine).1 = _
    rw [if_pos hthr]
    rw [hr]
    rfl
  · intro hthr
    unfold MasterSrc.match_employee_id
    rw [if_neg (by simp [hp]),
      if_neg (by simp [blankName_eq_false_of_norm_ne_nil hnorm]),
      hfind, hext]
    show ((if bs ≥ e.fuzzy_threshold then _ else _) :
      (Option (List Char) × MasterSrc.MatchStatus × Nat) ×
        MasterSrc.MatchingEngine).1 = _
    rw [if_neg (by omega)]

end ThreeInOne

namespace ThreeInOne

/-- Witness for C5: a one-key index, a constant scorer worth 37 and
threshold 10; the query `"MARY"` has no exact match, so the fuzzy branch
decides. -/
theorem C5_witness :
    ∃ bk bs r,
      MasterSrc.extractOne (fun _ _ => 37)
        (MasterSrc.normalize_name (some ("MARY".data)))
        ((MasterSrc.MatchingEngine.mk 10
          [("JOHN".data, ⟨"E1".data, "John".data⟩)]
          ⟨0, 0, 0, 0⟩).lookup_dict.map Prod.fst) = some (bk, bs) ∧
      bk ∈ (MasterSrc.MatchingEngine.mk 10
        [("JOHN".data, ⟨"E1".data, "John".data⟩)]
        ⟨0, 0, 0, 0⟩).lookup_dict.map Prod.fst ∧
      (fun _ _ => 37) (MasterSrc.normalize_name (some ("MARY".data))) bk =
        bs ∧
      (∀ k ∈ (MasterSrc.MatchingEngine.mk 10
          [("JOHN".data, ⟨"E1".data, "John".data⟩)]
          ⟨0, 0, 0, 0⟩).lookup_dict.map Prod.fst,
        (fun _ _ => 37) (MasterSrc.normalize_name (some ("MARY".data))) k ≤
          bs) ∧
      MasterSrc.dictFind (MasterSrc.MatchingEngine.mk 10
        [("JOHN".data, ⟨"E1".data, "John".data⟩)]
        ⟨0, 0, 0, 0⟩).lookup_dict bk = some r ∧
      ((MasterSrc.MatchingEngine.mk 10
          [("JOHN".data, ⟨"E1".data, "John".data⟩)]
          ⟨0, 0, 0, 0⟩).fuzzy_threshold ≤ bs →
        (MasterSrc.match_employee_id (fun _ _ => 37)
          (MasterSrc.MatchingEngine.mk 10
            [("JOHN".data, ⟨"E1".data, "John".data⟩)]
            ⟨0, 0, 0, 0⟩)
          (some ("MARY".data)) none).1 =
          (some r.id, MasterSrc.MatchStatus.fuzzyMatch bs, bs)) ∧
      (bs < (MasterSrc.MatchingEngine.mk 10
          [("JOHN".data, ⟨"E1".data, "John".data⟩)]
          ⟨0, 0, 0, 0⟩).fuzzy_threshold →
        (MasterSrc.match_employee_id (fun _ _ => 37)
          (MasterSrc.MatchingEngine.mk 10
            [("JOHN".data, ⟨"E1".data, "John".data⟩)]
            ⟨0, 0, 0, 0⟩)
          (some ("MARY".data)) none).1 =
          (none, MasterSrc.MatchStatus.noMatch, 0)) :=
  C5_fuzzy_threshold_boundary (fun _ _ => 37)
    (MasterSrc.MatchingEngine.mk 10
      [("JOHN".data, ⟨"E1".data, "John".data⟩)] ⟨0, 0, 0, 0⟩)
    ("MARY".data) none (by decide) (by decide) (by decide) (by decide)

end ThreeInOne

namespace ThreeInOne

/-- Claim C6: `validate_employee_ids` partitions each side.  Every left row
either contributes (as a value) to at least one matched pair or lies in
`only_in_file1`, never both and never neither, and the number of left rows
contributing to `matched` plus the length of `only_in_file1` is the length
of the left input; symmetrically for the right side. -/
theorem C6_reconciliation_partition :
    ∀ {α : Type} [DecidableEq α]
      (left right : List (MasterSrc.DataRow α)),
      left.countP (fun l => (MasterSrc.matched_df left right).any
          (fun pr => decide (pr.1 = l))) +
          (MasterSrc.only_in_file1 left right).length = left.length ∧
      (∀ l ∈ left,
        ((MasterSrc.matched_df left right).any
            (fun pr => decide (pr.1 = l)) = true ↔
          l ∉ MasterSrc.only_in_file1 left right)) ∧
      right.countP (fun r => (MasterSrc.matched_df left right).any
          (fun pr => decide (pr.2 = r))) +
          (MasterSrc.only_in_file2 left right).length = right.length ∧
      (∀ r ∈ right,
        ((MasterSrc.matched_df left right).any
            (fun pr => decide (pr.2 = r)) = true ↔
          r ∉ MasterSrc.only_in_file2 left right)) := by
  intro α _ left right
  refine ⟨?_, ?_, ?_, ?_⟩
  · have hcong : left.countP (fun l => (MasterSrc.matched_df left right).any
        (fun pr => decide (pr.1 = l))) =
        left.countP (fun l => right.any
          (fun r => decide (MasterSrc.rowKey r = MasterSrc.rowKey l))) :=
      List.countP_congr (fun l hl => MasterSrc.matched_fst_iff hl)
    have hlen : (MasterSrc.only_in_file1 left right).length =
        left.countP (fun l => !(right.any
          (fun r => decide (MasterSrc.rowKey r = MasterSrc.rowKey l)))) := by
      unfold MasterSrc.only_in_file1
      rw [List.countP_eq_length_filter]
    rw [hcong, hlen]
    exact countP_add_countP_not _ left
  · intro l hl
    rw [MasterSrc.matched_fst_iff hl]
    constructor
    · intro hany hmem
      rw [(MasterSrc.mem_only_in_file1_iff.mp hmem).2] at hany
      exact absurd hany (by simp)
    · intro hnot
      by_cases hany : right.any
          (fun r => decide (MasterSrc.rowKey r = MasterSrc.rowKey l)) = true
      · exact hany
      · exact absurd (MasterSrc.mem_only_in_file1_iff.mpr
          ⟨hl, Bool.not_eq_true _ ▸ hany⟩) hnot
  · have hcong : right.countP (fun r => (MasterSrc.matched_df left right).any
        (fun pr => decide (pr.2 = r))) =
        right.countP (fun r => left.any
          (fun l => decide (MasterSrc.rowKey l = MasterSrc.rowKey r))) :=
      List.countP_congr (fun r hr => MasterSrc.matched_snd_iff hr)
    have hlen : (MasterSrc.only_in_file2 left right).length =
        right.countP (fun r => !(left.any
          (fun l => decide (MasterSrc.rowKey l = MasterSrc.rowKey r)))) := by
      unfold MasterSrc.only_in_file2
      rw [List.countP_eq_length_filter]
    rw [hcong, hlen]
    exact countP_add_countP_not _ right
  · intro r hr
    rw [MasterSrc.matched_snd_iff hr]
    constructor
    · intro hany hmem
      rw [(MasterSrc.mem_only_in_file2_iff.mp hmem).2] at hany
      exact absurd hany (by simp)
    · intro hnot
      by_cases hany : left.any
          (fun l => decide (MasterSrc.rowKey l = MasterSrc.rowKey r)) = true
      · exact hany
      · exact absurd (MasterSrc.mem_only_in_file2_iff.mpr
          ⟨hr, Bool.not_eq_true _ ▸ hany⟩) hnot

end ThreeInOne

namespace ThreeInOne

/-- Witness for C6: a matching pair of single-row datasets; the left row
contributes to `matched` and is accordingly not in `only_in_file1`. -/
theorem C6_witness :
    (MasterSrc.matched_df
        [MasterSrc.DataRow.mk (some ("John Smith".data)) (0 : Nat)]
        [MasterSrc.DataRow.mk (some ("john  smith".data)) (1 : Nat)]).any
      (fun pr =>
        decide (pr.1 = MasterSrc.DataRow.mk (some ("John Smith".data)) 0)) =
      true ↔
    MasterSrc.DataRow.mk (some ("John Smith".data)) 0 ∉
      MasterSrc.only_in_file1
        [MasterSrc.DataRow.mk (some ("John Smith".data)) (0 : Nat)]
        [MasterSrc.DataRow.mk (some ("john  smith".data)) (1 : Nat)] :=
  (C6_reconciliation_partition
    [MasterSrc.DataRow.mk (some ("John Smith".data)) (0 : Nat)]
    [MasterSrc.DataRow.mk (some ("john  smith".data)) (1 : Nat)]).2.1
    (MasterSrc.DataRow.mk (some ("John Smith".data)) 0) (by simp)

/-- Claim C7, counterexample: when BOTH sides contain a row whose name
normalizes to the empty string (here the raw name `"."`), those rows join
with each other: `matched` holds the pair and `only_in_file1` is empty,
contradicting the claim that such rows always land in `only_in_file1` and
never contribute to a matched pair. -/
theorem C7_counterexample :
    MasterSrc.rowKey (MasterSrc.DataRow.mk (some (".".data)) (0 : Nat)) =
      [] ∧
    MasterSrc.only_in_file1
      [MasterSrc.DataRow.mk (some (".".data)) (0 : Nat)]
      [MasterSrc.DataRow.mk (some (".".data)) (1 : Nat)] = [] ∧
    MasterSrc.matched_df
      [MasterSrc.DataRow.mk (some (".".data)) (0 : Nat)]
      [MasterSrc.DataRow.mk (some (".".data)) (1 : Nat)] =
      [(MasterSrc.DataRow.mk (some (".".data)) 0,
        MasterSrc.DataRow.mk (some (".".data)) 1)] := by
  exact ⟨by decide, by decide, by decide⟩

/-- Claim C7 (amended): a left row whose name normalizes to the empty
string lies in `only_in_file1` exactly when no right row also normalizes
to empty, and contributes to a matched pair exactly when some right row
normalizes to empty (empty-keyed rows on opposite sides join with each
other like any other key); symmetrically for the right side. -/
theorem C7_empty_name_rows :
    ∀ {α : Type} [DecidableEq α] (left right : List (MasterSrc.DataRow α)),
      (∀ l ∈ left, MasterSrc.rowKey l = [] →
        ((l ∈ MasterSrc.only_in_file1 left right ↔
            ∀ r ∈ right, MasterSrc.rowKey r ≠ []) ∧
          ((MasterSrc.matched_df left right).any
              (fun pr => decide (pr.1 = l)) = true ↔
            ∃ r ∈ right, MasterSrc.rowKey r = []))) ∧
      (∀ r ∈ right, MasterSrc.rowKey r = [] →
        ((r ∈ MasterSrc.only_in_file2 left right ↔
            ∀ l ∈ left, MasterSrc.rowKey l ≠ []) ∧
          ((MasterSrc.matched_df left right).any
              (fun pr => decide (pr.2 = r)) = true ↔
            ∃ l ∈ left, MasterSrc.rowKey l = []))) := by
  intro α _ left right
  constructor
  · intro l hl hkey
    constructor
    · rw [MasterSrc.mem_only_in_file1_iff]
      constructor
      · rintro ⟨_, hany⟩ r hr hrk
        rw [List.any_eq_false] at hany
        exact absurd (decide_eq_true (by rw [hkey, hrk])) (hany r hr)
      · intro hall
        refine ⟨hl, List.any_eq_false.mpr ?_⟩
        intro r hr hdec
        exact hall r hr ((of_decide_eq_true hdec).trans hkey)
    · rw [MasterSrc.matched_fst_iff hl]
      constructor
      · intro hany
        obtain ⟨r, hr, hdec⟩ := List.any_eq_true.mp hany
        exact ⟨r, hr, (of_decide_eq_true hdec).trans hkey⟩
      · rintro ⟨r, hr, hrk⟩
        exact List.any_eq_true.mpr
          ⟨r, hr, decide_eq_true (by rw [hkey, hrk])⟩
  · intro r hr hkey
    constructor
    · rw [MasterSrc.mem_only_in_file2_iff]
      constructor
      · rintro ⟨_, hany⟩ l hlm hlk
        rw [List.any_eq_false] at hany
        exact absurd (decide_eq_true (by rw [hkey, hlk])) (hany l hlm)
      · intro hall
        refine ⟨hr, List.any_eq_false.mpr ?_⟩
        intro l hlm hdec
        exact hall l hlm ((of_decide_eq_true hdec).trans hkey)
    · rw [MasterSrc.matched_snd_iff hr]
      constructor
      · intro hany
        obtain ⟨l, hlm, hdec⟩ := List.any_eq_true.mp hany
        exact ⟨l, hlm, (of_decide_eq_true hdec).trans hkey⟩
      · rintro ⟨l, hlm, hlk⟩
        exact List.any_eq_true.mpr
          ⟨l, hlm, decide_eq_true (by rw [hkey, hlk])⟩

/-- Witness for C7 (amended): a left row with raw name `"."` (empty key)
against a right side with no empty-keyed row lies in `only_in_file1`. -/
theorem C7_witness :
    (MasterSrc.DataRow.mk (some (".".data)) (0 : Nat) ∈
      MasterSrc.only_in_file1
        [MasterSrc.DataRow.mk (some (".".data)) (0 : Nat)]
        [MasterSrc.DataRow.mk (some ("John".data)) (1 : Nat)] ↔
      ∀ r ∈ [MasterSrc.DataRow.mk (some ("John".data)) (1 : Nat)],
        MasterSrc.rowKey r ≠ []) ∧
    ((MasterSrc.matched_df
        [MasterSrc.DataRow.mk (some (".".data)) (0 : Nat)]
        [MasterSrc.DataRow.mk (some ("John".data)) (1 : Nat)]).any
      (fun pr =>
        decide (pr.1 = MasterSrc.DataRow.mk (some (".".data)) 0)) = true ↔
      ∃ r ∈ [MasterSrc.DataRow.mk (some ("John".data)) (1 : Nat)],
        MasterSrc.rowKey r = []) :=
  (C7_empty_name_rows
    [MasterSrc.DataRow.mk (some (".".data)) (0 : Nat)]
    [MasterSrc.DataRow.mk (some ("John".data)) (1 : Nat)]).1
    (MasterSrc.DataRow.mk (some (".".data)) 0) (by simp) (by decide)

end ThreeInOne

namespace ThreeInOne

/-- Claim C8: the classifier coerces both compliance cells of every matched
row; a row where either coercion fails (delta `none`) lands in no bucket,
every other row lands in exactly one bucket determined by the sign of
`delta = current - history`, and the three bucket sizes plus the skipped
count add up to the input size.  Stated for every coercion function, since
`pd.to_numeric(errors="coerce")` is an external pandas routine. -/
theorem C8_classification_partition :
    ∀ {γ α : Type} (toNum : γ → Option ℚ)
      (rows : List (MasterSrc.MatchedRow γ α)),
      (MasterSrc.improvedRows toNum rows).length +
          (MasterSrc.declinedRows toNum rows).length +
          (MasterSrc.unchangedRows toNum rows).length +
          MasterSrc.skippedCount toNum rows = rows.length ∧
      (∀ r ∈ rows, MasterSrc.compDelta toNum r = none →
        r ∉ MasterSrc.improvedRows toNum rows ∧
        r ∉ MasterSrc.declinedRows toNum rows ∧
        r ∉ MasterSrc.unchangedRows toNum rows) ∧
      (∀ r ∈ rows, ∀ d : ℚ, MasterSrc.compDelta toNum r = some d →
        ((r ∈ MasterSrc.improvedRows toNum rows ↔ 0 < d) ∧
          (r ∈ MasterSrc.declinedRows toNum rows ↔ d < 0) ∧
          (r ∈ MasterSrc.unchangedRows toNum rows ↔ d = 0))) := by
  intro γ α toNum rows
  refine ⟨?_, ?_, ?_⟩
  · have hlen1 : (MasterSrc.improvedRows toNum rows).length =
        rows.countP (fun r =>
          match MasterSrc.compDelta toNum r with
          | some d => decide (0 < d)
          | none => false) := by
      unfold MasterSrc.improvedRows
      rw [List.countP_eq_length_filter]
    have hlen2 : (MasterSrc.declinedRows toNum rows).length =
        rows.countP (fun r =>
          match MasterSrc.compDelta toNum r with
          | some d => decide (d < 0)
          | none => false) := by
      unfold MasterSrc.declinedRows
      rw [List.countP_eq_length_filter]
    have hlen3 : (MasterSrc.unchangedRows toNum rows).length =
        rows.countP (fun r =>
          match MasterSrc.compDelta toNum r with
          | some d => decide (d = 0)
          | none => false) := by
      unfold MasterSrc.unchangedRows
      rw [List.countP_eq_length_filter]
    rw [hlen1, hlen2, hlen3]
    unfold MasterSrc.skippedCount
    apply countP_four_partition
    intro a _
    cases hd : MasterSrc.compDelta toNum a with
    | none => simp [hd]
    | some d =>
      simp only [hd, Option.isNone_some]
      rcases lt_trichotomy (0 : ℚ) d with h | h | h
      · simp only [decide_eq_true h, decide_eq_false (lt_asymm h),
          decide_eq_false (fun he => absurd (he ▸ h) (lt_irrefl (0 : ℚ)) :
            ¬d = 0)]
        simp
      · have h1 : ¬(0 < d) := by rw [← h]; exact lt_irrefl 0
        have h2 : ¬(d < 0) := by rw [← h]; exact lt_irrefl 0
        simp only [decide_eq_false h1, decide_eq_false h2,
          decide_eq_true h.symm]
        simp
      · simp only [decide_eq_false (lt_asymm h), decide_eq_true h,
          decide_eq_false (fun he => absurd (he ▸ h) (lt_irrefl (0 : ℚ)) :
            ¬d = 0)]
        simp
  · intro r _ hd
    refine ⟨?_, ?_, ?_⟩
    · intro hmem
      unfold MasterSrc.improvedRows at hmem
      have := (List.mem_filter.mp hmem).2
      rw [hd] at this
      exact absurd this (by simp)
    · intro hmem
      unfold MasterSrc.declinedRows at hmem
      have := (List.mem_filter.mp hmem).2
      rw [hd] at this
      exact absurd this (by simp)
    · intro hmem
      unfold MasterSrc.unchangedRows at hmem
      have := (List.mem_filter.mp hmem).2
      rw [hd] at this
      exact absurd this (by simp)
  · intro r hr d hd
    refine ⟨?_, ?_, ?_⟩
    · unfold MasterSrc.improvedRows
      rw [List.mem_filter]
      constructor
      · rintro ⟨_, hp⟩
        rw [hd] at hp
        exact of_decide_eq_true hp
      · intro h
        exact ⟨hr, by rw [hd]; exact decide_eq_true h⟩
    · unfold MasterSrc.declinedRows
      rw [List.mem_filter]
      constructor
      · rintro ⟨_, hp⟩
        rw [hd] at hp
        exact of_decide_eq_true hp
      · intro h
        exact ⟨hr, by rw [hd]; exact decide_eq_true h⟩
    · unfold MasterSrc.unchangedRows
      rw [List.mem_filter]
      constructor
      · rintro ⟨_, hp⟩
        rw [hd] at hp
        exact of_decide_eq_true hp
      · intro h
        exact ⟨hr, by rw [hd]; exact decide_eq_true h⟩

/-- Witness for C8: with the identity coercion, a row going from 80 to 95
has delta 15 and is classified as improved. -/
theorem C8_witness :
    (MasterSrc.MatchedRow.mk (some (80 : ℚ)) (some (95 : ℚ)) (0 : Nat) ∈
        MasterSrc.improvedRows (fun x => x)
          [MasterSrc.MatchedRow.mk (some (80 : ℚ)) (some (95 : ℚ)) 0] ↔
      (0 : ℚ) < 15) ∧
    (MasterSrc.MatchedRow.mk (some (80 : ℚ)) (some (95 : ℚ)) (0 : Nat) ∈
        MasterSrc.declinedRows (fun x => x)
          [MasterSrc.MatchedRow.mk (some (80 : ℚ)) (some (95 : ℚ)) 0] ↔
      (15 : ℚ) < 0) ∧
    (MasterSrc.MatchedRow.mk (some (80 : ℚ)) (some (95 : ℚ)) (0 : Nat) ∈
        MasterSrc.unchangedRows (fun x => x)
          [MasterSrc.MatchedRow.mk (some (80 : ℚ)) (some (95 : ℚ)) 0] ↔
      (15 : ℚ) = 0) :=
  (C8_classification_partition (fun x => x)
    [MasterSrc.MatchedRow.mk (some (80 : ℚ)) (some (95 : ℚ)) 0]).2.2
    (MasterSrc.MatchedRow.mk (some (80 : ℚ)) (some (95 : ℚ)) 0)
    (by simp) 15 (by norm_num [MasterSrc.compDelta])

end ThreeInOne

namespace ThreeInOne

/-- Claim C9, counterexample: on prefix `"My Report"` with extension
`".xlsx"`, `MASTER_3in1Tool_v2.format_output_filename` performs no prefix
normalization at all (`"My Report_<ts>.xlsx"`), and even
`utils_threeinone.format_output_filename` differs from the claimed pattern
because it strips the extension's leading dots before adding its own
(`"my_report_<ts>.xlsx"` versus the claimed `"my_report_<ts>..xlsx"`). -/
theorem C9_counterexample :
    MasterSrc.format_output_filename ("My Report".data) (".xlsx".data)
        ("20250804T093045".data) ≠
      ClaimSpec.claimedFilename ("My Report".data) (".xlsx".data)
        ("20250804T093045".data) ∧
    UtilsSrc.format_output_filename ("My Report".data) (".xlsx".data)
        ("20250804T093045".data) ≠
      ClaimSpec.claimedFilename ("My Report".data) (".xlsx".data)
        ("20250804T093045".data) := by
  exact ⟨by decide, by decide⟩

/-- Claim C9 (amended): for every prefix, extension and timestamp,
`utils_threeinone.format_output_filename` produces exactly the claimed
pattern applied to the extension with its leading dots stripped — prefix
stripped, runs of characters outside `[A-Za-z0-9_-]` collapsed to one
underscore, lowercased, then underscore, timestamp, dot, extension — while
`MASTER_3in1Tool_v2.format_output_filename` returns the base name verbatim
followed by an underscore, the timestamp and the extension string as given
(dot included). -/
theorem C9_filename_patterns :
    ∀ pre ext ts : List Char,
      UtilsSrc.format_output_filename pre ext ts =
        ClaimSpec.claimedFilename pre
          (ext.dropWhile (fun c => c == '.')) ts ∧
      MasterSrc.format_output_filename pre ext ts =
        pre ++ '_' :: ts ++ ext := by
  intro pre ext ts
  exact ⟨rfl, rfl⟩

/-- Claim C10, counterexample: the two `normalize_name` implementations
disagree: on `"A-B"` the utils version keeps the hyphen while the MASTER
version replaces it by a space, and on `"JOHN SMITH JR"` only the MASTER
version strips the suffix. -/
theorem C10_counterexample :
    UtilsSrc.normalize_name (some ("A-B".data)) ≠
      MasterSrc.normalize_name (some ("A-B".data)) ∧
    UtilsSrc.normalize_name (some ("JOHN SMITH JR".data)) ≠
      MasterSrc.normalize_name (some ("JOHN SMITH JR".data)) := by
  exact ⟨by decide, by decide⟩

/-- Claim C10 (amended): the two normalizers are not the same function, but
they agree — both acting as the identity — on every name already in
canonical form: non-empty, uppercase ASCII letters and single internal
spaces, no leading/trailing space, and no word-bounded occurrence of the
generational suffixes JR, SR, III, II, IV. -/
theorem C10_normalizers_agree_on_clean :
    ∀ s : List Char, cleanName s = true →
      UtilsSrc.normalize_name (some s) = MasterSrc.normalize_name (some s) ∧
      UtilsSrc.normalize_name (some s) = s := by
  intro s h
  have h1 : UtilsSrc.normalize_name (some s) = s := utils_id_of_clean h
  have h2 := master_id_of_clean h
  exact ⟨h1.trans h2.symm, h1⟩

/-- Witness for C10: both normalizers leave the canonical name
`"MARY ANNE BLOGGS"` unchanged, hence agree on it. -/
theorem C10_witness :
    UtilsSrc.normalize_name (some ("MARY ANNE BLOGGS".data)) =
      MasterSrc.normalize_name (some ("MARY ANNE BLOGGS".data)) ∧
    UtilsSrc.normalize_name (some ("MARY ANNE BLOGGS".data)) =
      "MARY ANNE BLOGGS".data :=
  C10_normalizers_agree_on_clean ("MARY ANNE BLOGGS".data) (by decide)

end ThreeInOne
